import Mathlib

/-!
Verification of the client-side video export pipeline of the Aios-VISu
repository.  The definitions below are a shallow embedding of
`src/utils/videoExporter.ts` and `src/utils/ffmpeg.ts`; JavaScript numbers
are modelled as rationals (reals for the trigonometric 3D path), the
encoder's virtual filesystem and the module-level encoder-session state as
explicit record types, and the asynchronous control flow as event traces
and explicit state transitions.
-/

/-! ### Frame schedule (videoExporter.ts, `exportToVideo`, lines 230-270)

`totalFrames = Math.floor(duration * fps)`; the loop
`for (let i = 0; i < totalFrames; i += batchSize)` builds for each `i` a
batch `Array.from({length: Math.min(batchSize, totalFrames - i)}, (_, j) => i + j)`
of frame indices, captures the whole batch concurrently and awaits
`Promise.all(batch)` before the next iteration. -/

/-- `Math.floor(duration * fps)` as a natural number (both factors are
positive in every export request). -/
def totalFramesNat (duration fps : ℚ) : ℕ := (⌊duration * fps⌋).toNat

/-- The frame indices of the batch starting at `i`:
`Array.from({length: Math.min(batchSize, totalFrames - i)}, (_, j) => i + j)`. -/
def batchIndices (i totalFrames batchSize : ℕ) : List ℕ :=
  (List.range (min batchSize (totalFrames - i))).map (fun j => i + j)

/-- The loop `for (let i = 0; i < totalFrames; i += batchSize)`, collecting
the batch issued by each iteration.  The fuel argument only bounds the
number of iterations; `totalFrames` fuel is always enough because `i`
advances by `batchSize ≥ 1` each round. -/
def exportBatchesAux (batchSize : ℕ) : ℕ → ℕ → ℕ → List (List ℕ)
  | 0, _, _ => []
  | fuel + 1, i, totalFrames =>
    if i < totalFrames then
      batchIndices i totalFrames batchSize ::
        exportBatchesAux batchSize fuel (i + batchSize) totalFrames
    else []

/-- The batches of frame indices issued by one export of `totalFrames`
frames (`batchSize = 5` in the source). -/
def exportBatches (totalFrames : ℕ) : List (List ℕ) :=
  exportBatchesAux 5 totalFrames 0 totalFrames

/-- `const time = frame / totalFrames` (videoExporter.ts line 245). -/
def normalizedTime (frame totalFrames : ℕ) : ℚ := (frame : ℚ) / (totalFrames : ℚ)

/-! ### Capture/write event traces (videoExporter.ts lines 241-270)

Within one batch the five async thunks are created synchronously in index
order, so every capture of the batch starts before any of them finishes;
their completions may interleave arbitrarily; `await Promise.all(batch)`
is a barrier before the next batch's thunks are created. -/

/-- A capture event: `start i` is the initiation of the capture of frame
`i` (the synchronous prefix of the async thunk), `finish i` is the
resolution of its capture-and-write. -/
inductive CapEvent where
  | start (i : ℕ)
  | finish (i : ℕ)
deriving DecidableEq, Repr

/-- The event traces one batch can produce: all captures start in index
order (the thunks are created synchronously by `Array.from`), then the
capture-and-writes resolve in some arbitrary order. -/
def BatchTrace (b : List ℕ) (t : List CapEvent) : Prop :=
  ∃ c : List ℕ, c.Perm b ∧ t = b.map CapEvent.start ++ c.map CapEvent.finish

/-- The event traces the batched loop can produce: the trace of each batch,
in loop order, with `await Promise.all(batch)` as a barrier between
consecutive batches. -/
def ValidTrace : List (List ℕ) → List CapEvent → Prop
  | [], t => t = []
  | b :: bs, t => ∃ t₁ t₂, t = t₁ ++ t₂ ∧ BatchTrace b t₁ ∧ ValidTrace bs t₂

/-! ### Frame filenames (videoExporter.ts line 256)

`const frameName = 'frames/frame' + frame.toString().padStart(6, '0') + '.png'`. -/

/-- The character of a decimal digit, `'0'` through `'9'`. -/
def digitChar (d : ℕ) : Char := Char.ofNat (48 + d)

/-- Decimal digits of `n`, least significant first, computed with enough
fuel (`Number.prototype.toString` in base 10). -/
def toDigitsRevAux : ℕ → ℕ → List ℕ
  | 0, _ => []
  | _ + 1, 0 => []
  | fuel + 1, n => n % 10 :: toDigitsRevAux fuel (n / 10)

/-- `n.toString()` for a natural JavaScript number: its decimal digit
characters, most significant first (`"0"` for zero). -/
def jsNatChars (n : ℕ) : List Char :=
  if n = 0 then [digitChar 0] else ((toDigitsRevAux n n).map digitChar).reverse

/-- `s.padStart(target, c)`: left-pad with `c` up to length `target`
(never truncates). -/
def padStartChars (target : ℕ) (c : Char) (s : List Char) : List Char :=
  List.replicate (target - s.length) c ++ s

/-- `'frames/frame' + frame.toString().padStart(6, '0') + '.png'`. -/
def frameName (frame : ℕ) : String :=
  "frames/frame" ++ String.mk (padStartChars 6 (digitChar 0) (jsNatChars frame)) ++ ".png"

/-- Fixed-width decimal digits, least significant first: exactly `k`
digits, zero-padded.  Proof-side normal form for `padStart`-padded
decimal strings. -/
def fixDigitsLE : ℕ → ℕ → List ℕ
  | 0, _ => []
  | k + 1, n => n % 10 :: fixDigitsLE k (n / 10)

/-- Fixed-width decimal digits, most significant first: exactly `k`
digits, zero-padded. -/
def fixDigitsBE : ℕ → ℕ → List ℕ
  | 0, _ => []
  | k + 1, n => n / 10 ^ k :: fixDigitsBE k (n % 10 ^ k)

/-! ### Animation timeline driver (videoExporter.ts, `applyAnimations`,
lines 106-155)

The element's transform and opacity are first reset to a neutral baseline
(`transform = ''`, `opacity = '1'`); each directive appends one
`gsap` `fromTo` tween per the `switch` (a `'3d'` directive matches no case
and appends nothing); the timeline is then sought to the requested
progress.  The tween lists below record each `fromTo`'s literal `from`
and `to` property sets together with its duration, delay and easing
arguments. -/

/-- The `type` field of an animation directive. -/
inductive AnimKind where
  | fade
  | slide
  | zoom
  | rotate
  | threeD
deriving DecidableEq, Repr

/-- One entry of `options.animations`: optional fields default to
`duration 1`, `delay 0`, `easing 'power2.inOut'` inside the loop. -/
structure AnimDirective where
  kind : AnimKind
  duration : Option ℚ
  delay : Option ℚ
  easing : Option String

/-- A partial assignment of the animated presentation properties, as the
object literals passed to `gsap.fromTo`. -/
structure PropSet where
  opacity : Option ℚ
  x : Option ℚ
  scale : Option ℚ
  rotation : Option ℚ

/-- One `timeline.fromTo(element, fromProps, {...toProps, duration, delay, ease})`
call. -/
structure Tween where
  fromProps : PropSet
  toProps : PropSet
  duration : ℚ
  delay : ℚ
  ease : String

/-- The tween appended for one directive by the `switch (animation.type)`:
`fade` tweens opacity 0→1, `slide` tweens x −100→0 with opacity 0→1,
`zoom` tweens scale 0→1 with opacity 0→1, `rotate` tweens rotation
−180→0 with opacity 0→1; `'3d'` matches no case and appends nothing. -/
def tweenOf (d : AnimDirective) : Option Tween :=
  let dur := d.duration.getD 1
  let del := d.delay.getD 0
  let ease := d.easing.getD "power2.inOut"
  match d.kind with
  | .fade => some ⟨⟨some 0, none, none, none⟩, ⟨some 1, none, none, none⟩, dur, del, ease⟩
  | .slide => some ⟨⟨some 0, some (-100), none, none⟩, ⟨some 1, some 0, none, none⟩, dur, del, ease⟩
  | .zoom => some ⟨⟨some 0, none, some 0, none⟩, ⟨some 1, none, some 1, none⟩, dur, del, ease⟩
  | .rotate => some ⟨⟨some 0, none, none, some (-180)⟩, ⟨some 1, none, none, some 0⟩, dur, del, ease⟩
  | .threeD => none

/-- The timeline built by `animations.forEach`: the tweens of the
directives in the order given. -/
def buildTimeline (ds : List AnimDirective) : List Tween :=
  ds.filterMap tweenOf

/-- The computed presentation state of the cloned element. -/
structure VisualState where
  opacity : ℚ
  x : ℚ
  scale : ℚ
  rotation : ℚ
deriving DecidableEq, Repr

/-- The neutral state after `element.style.transform = ''` and
`element.style.opacity = '1'`: opacity 1, no translation, unit scale, no
rotation. -/
def baselineState : VisualState := ⟨1, 0, 1, 0⟩

/-- Apply the defined properties of a tween endpoint to a state. -/
def applyProps (p : PropSet) (s : VisualState) : VisualState :=
  ⟨p.opacity.getD s.opacity, p.x.getD s.x, p.scale.getD s.scale, p.rotation.getD s.rotation⟩

/-- The element state after seeking the timeline to progress 1
(`timeline.progress(1); timeline.update()`): every tween has rendered at
its end, so each tween's `to` properties are applied in timeline order
(gsap semantics of a completed timeline). -/
def stateAtOne (ts : List Tween) : VisualState :=
  ts.foldl (fun s t => applyProps t.toProps s) baselineState

/-- The element state after seeking the timeline to progress 0
(`timeline.progress(0); timeline.update()`): the timeline sits at its
start, where the first tween renders its `from` properties and no later
tween has started (gsap semantics of a timeline at time 0). -/
def stateAtZero (ts : List Tween) : VisualState :=
  match ts with
  | [] => baselineState
  | t :: _ => applyProps t.fromProps baselineState

/-! ### 3D compositing path (videoExporter.ts, `render3DFrame`,
lines 69-71)

`plane.rotation.y = Math.PI * progress` and
`plane.position.z = -2 * Math.sin(Math.PI * progress)` with
`progress = frame.time`. -/

/-- `plane.rotation.y = Math.PI * progress`. -/
noncomputable def planeRotationY (t : ℝ) : ℝ := Real.pi * t

/-- `plane.position.z = -2 * Math.sin(Math.PI * progress)`. -/
noncomputable def planePositionZ (t : ℝ) : ℝ := -2 * Real.sin (Real.pi * t)

/-! ### Encoder storage across one export (videoExporter.ts lines 219-314)

`exportToVideo` runs `await ffmpeg.createDir('frames')`, writes the frames,
runs `ffmpeg.exec` (which produces `output.mp4`), reads the output, and
only then `deleteDir('frames')` and `delete('output.mp4')`.  Any error
thrown in between reaches the outer `catch`, which re-throws after showing
a toast; the `finally` removes only the cloned DOM element, so no encoder
storage is removed on a failure path.  The record below tracks the two
storage entries the claim is about. -/

/-- The encoder session's storage entries named by the export flow. -/
structure EncFS where
  framesDir : Bool
  outputFile : Bool
deriving DecidableEq, Repr

/-- Where one run of `exportToVideo` can first fail (external calls are
the only failure points): a frame capture/write rejects, `ffmpeg.exec`
throws before producing the output, `readFile` throws after the output
exists, or everything succeeds. -/
inductive ExportOutcome where
  | captureFailure
  | encodeFailure
  | readFailure
  | success
deriving DecidableEq, Repr

/-- The encoder-storage effect and result of one `exportToVideo` call,
following the source order: `createDir('frames')`; on capture failure the
error propagates with no storage cleanup; `exec` produces `output.mp4`
(on encode failure it does not, and the error propagates uncleaned); on
read failure the output already exists and the error propagates uncleaned;
on success `deleteDir('frames')` and `delete('output.mp4')` run before
the blob is returned. -/
def runExport (oc : ExportOutcome) (s : EncFS) : Except String Unit × EncFS :=
  let s₁ : EncFS := { s with framesDir := true }
  match oc with
  | .captureFailure => (.error "CaptureError", s₁)
  | .encodeFailure => (.error "EncodeError", s₁)
  | .readFailure => (.error "ReadError", { s₁ with outputFile := true })
  | .success =>
    let s₂ : EncFS := { s₁ with outputFile := true }
    let s₃ : EncFS := { s₂ with framesDir := false }
    let s₄ : EncFS := { s₃ with outputFile := false }
    (.ok (), s₄)

/-! ### Encoder session manager (ffmpeg.ts, `getFFmpeg`, lines 49-111)

Module state: `let ffmpeg: FFmpeg | null`, `let isLoading: boolean`,
`let loadingPromise: Promise<FFmpeg> | null`.  The body of `getFFmpeg` is
synchronous (no `await` before `return`), so each call is one atomic step
on this state; the async IIFE's success and failure continuations are
separate atomic steps (the `catch`/`finally` bodies contain no `await`).
Instances and promises are named by a fresh-id counter;
`fetchSequences` counts how many initialization fetch sequences
(`Promise.all` of the three `fetchWithRetry` calls) have been started;
`loaded` lists the instances whose `load` has completed. -/

/-- The module-level state of `ffmpeg.ts`. -/
structure FFState where
  ffmpeg : Option ℕ
  isLoading : Bool
  loadingPromise : Option ℕ
  loaded : List ℕ
  nextId : ℕ
  fetchSequences : ℕ
deriving DecidableEq, Repr

/-- The state at module load: `ffmpeg = null`, `isLoading = false`,
`loadingPromise = null`. -/
def initFFState : FFState := ⟨none, false, none, [], 0, 0⟩

/-- What one synchronous `getFFmpeg` call hands its caller. -/
inductive GetOutcome where
  | returnInst (id : ℕ)
  | awaitPromise (p : ℕ)
  | startLoad (p : ℕ) (id : ℕ)
deriving DecidableEq, Repr

/-- The synchronous body of `getFFmpeg`: `if (ffmpeg) return ffmpeg;`
then `if (isLoading && loadingPromise) return loadingPromise;` then
`isLoading = true; ffmpeg = new FFmpeg(); loadingPromise = (async ...)()`
— creating the instance, starting the fetch sequence and returning the
new promise. -/
def getFFmpegSync (s : FFState) : GetOutcome × FFState :=
  match s.ffmpeg with
  | some id => (.returnInst id, s)
  | none =>
    if s.isLoading && s.loadingPromise.isSome then
      (.awaitPromise (s.loadingPromise.getD 0), s)
    else
      (.startLoad s.nextId s.nextId,
        { s with
          ffmpeg := some s.nextId
          isLoading := true
          loadingPromise := some s.nextId
          nextId := s.nextId + 1
          fetchSequences := s.fetchSequences + 1 })

/-- The async IIFE's success continuation: `await ffmpeg!.load(...)`
completed and the IIFE returns `ffmpeg!`; the `finally` block sets
`isLoading = false; loadingPromise = null`. -/
def completeLoadSuccess (s : FFState) : FFState :=
  { s with
    loaded := s.loaded ++ s.ffmpeg.toList
    isLoading := false
    loadingPromise := none }

/-- The async IIFE's failure continuation (`catch` plus `finally`):
`ffmpeg = null`, the attempt rejects with
`new Error('FFmpeg initialization failed: ' + cause)`, and the `finally`
block sets `isLoading = false; loadingPromise = null`. -/
def completeLoadFailure (s : FFState) (cause : String) : Except String ℕ × FFState :=
  (.error ("FFmpeg initialization failed: " ++ cause),
    { s with ffmpeg := none, isLoading := false, loadingPromise := none })

/-! ### Resource fetch with retry (ffmpeg.ts, `fetchWithRetry`,
lines 22-47)

`for (const url of urls) for (let i = 0; i < retries; i++) { try fetch;
catch { lastError = e; if (i === retries - 1) continue;
await setTimeout(1000 * Math.pow(2, i)); } }` and finally
`throw lastError`.  URLs are named by index; the oracle `ok url i` says
whether attempt `i` on `url` succeeds. -/

/-- An observable event of `fetchWithRetry`: one `fetch` attempt, or one
backoff `setTimeout` sleep in milliseconds. -/
inductive FetchEvent where
  | attempt (url tryIdx : ℕ)
  | sleep (ms : ℕ)
deriving DecidableEq, Repr

/-- The inner retry loop for one URL, starting at attempt `i` with
`r = retries - i` attempts remaining: attempt; on success stop; on the
last attempt (`i = retries - 1`) `continue` with no sleep; otherwise sleep
`1000 * 2 ^ i` ms and retry. -/
def fetchOneUrlAux (url retries : ℕ) (ok : ℕ → ℕ → Bool) : ℕ → ℕ → List FetchEvent × Bool
  | _, 0 => ([], false)
  | i, r + 1 =>
    if ok url i then ([.attempt url i], true)
    else if i = retries - 1 then ([.attempt url i], false)
    else
      let rest := fetchOneUrlAux url retries ok (i + 1) r
      (.attempt url i :: .sleep (1000 * 2 ^ i) :: rest.1, rest.2)

/-- The outer `for (const url of urls)` loop: try each URL's retry loop in
order, returning at the first success; after the last URL the accumulated
`lastError` is thrown (result `false`). -/
def fetchWithRetry (urls : List ℕ) (retries : ℕ) (ok : ℕ → ℕ → Bool) :
    List FetchEvent × Bool :=
  match urls with
  | [] => ([], false)
  | u :: us =>
    let this_ := fetchOneUrlAux u retries ok 0 retries
    if this_.2 then this_
    else
      let rest := fetchWithRetry us retries ok
      (this_.1 ++ rest.1, rest.2)

/-! ## Theorems -/

/-- C8: For every directive kind handled by the Animation Timeline Driver,
seeking the timeline to normalizedProgress 0 yields the directive's `from`
state and seeking to 1 yields its `to` state: fade interpolates opacity
0→1; slide interpolates x −100→0 with opacity 0→1; zoom interpolates
scale 0→1 with opacity 0→1; rotate interpolates rotation −180°→0° with
opacity 0→1; a `'3d'` directive appends no tween, so this driver leaves
the element at the neutral baseline at both endpoints. -/
theorem c8_timeline_endpoints (dur del : Option ℚ) (ease : Option String) :
    (stateAtZero (buildTimeline [⟨.fade, dur, del, ease⟩]) = ⟨0, 0, 1, 0⟩ ∧
      stateAtOne (buildTimeline [⟨.fade, dur, del, ease⟩]) = ⟨1, 0, 1, 0⟩) ∧
    (stateAtZero (buildTimeline [⟨.slide, dur, del, ease⟩]) = ⟨0, -100, 1, 0⟩ ∧
      stateAtOne (buildTimeline [⟨.slide, dur, del, ease⟩]) = ⟨1, 0, 1, 0⟩) ∧
    (stateAtZero (buildTimeline [⟨.zoom, dur, del, ease⟩]) = ⟨0, 0, 0, 0⟩ ∧
      stateAtOne (buildTimeline [⟨.zoom, dur, del, ease⟩]) = ⟨1, 0, 1, 0⟩) ∧
    (stateAtZero (buildTimeline [⟨.rotate, dur, del, ease⟩]) = ⟨0, 0, 1, -180⟩ ∧
      stateAtOne (buildTimeline [⟨.rotate, dur, del, ease⟩]) = ⟨1, 0, 1, 0⟩) ∧
    (buildTimeline [⟨.threeD, dur, del, ease⟩] = [] ∧
      stateAtZero (buildTimeline [⟨.threeD, dur, del, ease⟩]) = baselineState ∧
      stateAtOne (buildTimeline [⟨.threeD, dur, del, ease⟩]) = baselineState) := by
  refine ⟨⟨?_, ?_⟩, ⟨?_, ?_⟩, ⟨?_, ?_⟩, ⟨?_, ?_⟩, ?_, ?_, ?_⟩ <;>
    simp [stateAtZero, stateAtOne, buildTimeline, tweenOf, applyProps, baselineState]

/-- C9: For every normalizedTime `t` the 3D compositing path sets the
plane's rotation about its vertical axis to `π·t` radians and its depth
displacement to `−2·sin(π·t)`; the displacement is 0 at `t = 0` and
`t = 1`, equals −2 at `t = 1/2`, and `t = 1/2` is a global extremum
(minimum) of the displacement. -/
theorem c9_three_d_path :
    (∀ t : ℝ, planeRotationY t = Real.pi * t) ∧
    planePositionZ 0 = 0 ∧
    planePositionZ 1 = 0 ∧
    planePositionZ (1 / 2) = -2 ∧
    (∀ t : ℝ, planePositionZ (1 / 2) ≤ planePositionZ t) := by
  refine ⟨fun t => rfl, ?_, ?_, ?_, ?_⟩
  · simp [planePositionZ]
  · simp [planePositionZ]
  · show -2 * Real.sin (Real.pi * (1 / 2)) = -2
    rw [show Real.pi * (1 / 2 : ℝ) = Real.pi / 2 by ring, Real.sin_pi_div_two]
    norm_num
  · intro t
    show -2 * Real.sin (Real.pi * (1 / 2)) ≤ -2 * Real.sin (Real.pi * t)
    rw [show Real.pi * (1 / 2 : ℝ) = Real.pi / 2 by ring, Real.sin_pi_div_two]
    have h1 : Real.sin (Real.pi * t) ≤ 1 := Real.sin_le_one _
    nlinarith

/-- C2 (counterexample): the claim that the frames directory and the
output file are removed on every failure path is false: when a frame
capture fails, `exportToVideo` returns (rethrows) with the `frames`
directory still present, and when reading `output.mp4` fails, both the
`frames` directory and `output.mp4` are still present. -/
theorem c2_cleanup_counterexample :
    ((runExport .captureFailure ⟨false, false⟩).1 = .error "CaptureError" ∧
      (runExport .captureFailure ⟨false, false⟩).2.framesDir = true) ∧
    ((runExport .readFailure ⟨false, false⟩).1 = .error "ReadError" ∧
      (runExport .readFailure ⟨false, false⟩).2.framesDir = true ∧
      (runExport .readFailure ⟨false, false⟩).2.outputFile = true) :=
  ⟨⟨rfl, rfl⟩, rfl, rfl, rfl⟩

/-- C2 (amended): the encoder's intermediate `frames` directory and the
`output.mp4` file are removed before `exportToVideo` returns on the
success path only; on every failure path (capture failure, encode
failure, or output-read failure) no encoder-storage cleanup runs, so the
frames directory — and the output file, when the encode already produced
it — remains in the encoder session's storage. -/
theorem c2_cleanup_success_only (s : EncFS) :
    ((runExport .success s).1 = .ok () ∧
      (runExport .success s).2.framesDir = false ∧
      (runExport .success s).2.outputFile = false) ∧
    ((runExport .captureFailure s).2.framesDir = true) ∧
    ((runExport .encodeFailure s).2.framesDir = true) ∧
    ((runExport .readFailure s).2.framesDir = true ∧
      (runExport .readFailure s).2.outputFile = true) := by
  simp [runExport]

/-- C3: the claim fails on the code.  `getFFmpeg` assigns
`ffmpeg = new FFmpeg()` before `loadingPromise`, and its body has no
`await`, so while a load is in flight the module variable `ffmpeg` is the
not-yet-loaded instance; a second caller therefore takes the
`if (ffmpeg) return ffmpeg` branch and is handed that unready instance
immediately instead of awaiting the in-flight attempt's outcome.  (The
other half of the claim does hold at this input: the second call starts
no new fetch sequence.) -/
theorem c3_second_caller_gets_unready_instance :
    (getFFmpegSync initFFState).1 = GetOutcome.startLoad 0 0 ∧
    (getFFmpegSync (getFFmpegSync initFFState).2).1 = GetOutcome.returnInst 0 ∧
    0 ∉ (getFFmpegSync initFFState).2.loaded ∧
    (getFFmpegSync (getFFmpegSync initFFState).2).2.fetchSequences =
      (getFFmpegSync initFFState).2.fetchSequences := by
  decide

/-- C6: on any failure of the in-flight load, the partially constructed
encoder is discarded (`ffmpeg = null`), the session returns to
Uninitialized (`isLoading = false`), the shared in-flight promise is
cleared (`loadingPromise = null`), the attempt rejects with an error
wrapping the cause, and a subsequent `getFFmpeg` call starts a fresh
initialization sequence (a new instance, a new fetch sequence). -/
theorem c6_load_failure_resets (s : FFState) (cause : String) :
    (completeLoadFailure s cause).2.ffmpeg = none ∧
    (completeLoadFailure s cause).2.isLoading = false ∧
    (completeLoadFailure s cause).2.loadingPromise = none ∧
    (completeLoadFailure s cause).1 =
      .error ("FFmpeg initialization failed: " ++ cause) ∧
    (getFFmpegSync (completeLoadFailure s cause).2).1 =
      GetOutcome.startLoad s.nextId s.nextId ∧
    (getFFmpegSync (completeLoadFailure s cause).2).2.fetchSequences =
      s.fetchSequences + 1 := by
  simp [completeLoadFailure, getFFmpegSync]

/-- C5 (counterexample): the claim's backoff schedule of 1s, 2s, 4s per
URL is false.  With both CDN URLs failing on every attempt, the full
event trace contains exactly two backoff sleeps per URL — 1000 ms and
2000 ms — and no 4000 ms sleep ever occurs: after the third failed
attempt on a URL the loop moves on immediately
(`if (i === retries - 1) continue`). -/
theorem c5_backoff_counterexample :
    (fetchWithRetry [0, 1] 3 (fun _ _ => false)).1 =
      [.attempt 0 0, .sleep 1000, .attempt 0 1, .sleep 2000, .attempt 0 2,
        .attempt 1 0, .sleep 1000, .attempt 1 1, .sleep 2000, .attempt 1 2] ∧
    FetchEvent.sleep 4000 ∉ (fetchWithRetry [0, 1] 3 (fun _ _ => false)).1 ∧
    (fetchWithRetry [0, 1] 3 (fun _ _ => false)).2 = false := by
  refine ⟨by decide, by decide, by decide⟩

/-- C5 (amended): for every list of URLs, `fetchWithRetry` tries the URLs
in order, attempting each URL up to 3 times with exponential backoff
sleeps of 1s then 2s between consecutive attempts on the same URL (no
sleep after a URL's final attempt, before moving to the next URL), and it
fails only when every URL/retry combination has been exhausted: when all
attempts fail, the trace is exactly attempts 0, 1, 2 on each URL in order
with the 1000 ms and 2000 ms sleeps interleaved, and the overall result
is failure. -/
theorem c5_retry_schedule (urls : List ℕ) (ok : ℕ → ℕ → Bool)
    (h : ∀ u i, ok u i = false) :
    (fetchWithRetry urls 3 ok).1 =
      urls.flatMap (fun u =>
        [.attempt u 0, .sleep 1000, .attempt u 1, .sleep 2000, .attempt u 2]) ∧
    (fetchWithRetry urls 3 ok).2 = false := by
  have hone : ∀ u, fetchOneUrlAux u 3 ok 0 3 =
      ([.attempt u 0, .sleep 1000, .attempt u 1, .sleep 2000, .attempt u 2], false) := by
    intro u
    simp [fetchOneUrlAux, h]
  induction urls with
  | nil => exact ⟨rfl, rfl⟩
  | cons u us ih =>
    simp only [fetchWithRetry, hone, List.flatMap_cons]
    simp only [Bool.false_eq_true, if_false]
    exact ⟨by rw [ih.1], ih.2⟩

/-- C5 (witness for the amended theorem): with two URLs and an oracle on
which every fetch fails, the amended schedule and the failure result hold
concretely. -/
theorem c5_retry_schedule_witness :
    (∀ u i, (fun _ _ => false : ℕ → ℕ → Bool) u i = false) ∧
    ((fetchWithRetry [7, 9] 3 (fun _ _ => false)).1 =
      [7, 9].flatMap (fun u =>
        [.attempt u 0, .sleep 1000, .attempt u 1, .sleep 2000, .attempt u 2]) ∧
    (fetchWithRetry [7, 9] 3 (fun _ _ => false)).2 = false) :=
  ⟨fun _ _ => rfl, c5_retry_schedule [7, 9] (fun _ _ => false) (fun _ _ => rfl)⟩

/-- Flattening the batches of the capture loop started at index `i` gives
the contiguous index range `[i, totalFrames)`. -/
theorem exportBatchesAux_flatten (fuel : ℕ) :
    ∀ i total : ℕ, total - i ≤ fuel →
      (exportBatchesAux 5 fuel i total).flatten = List.range' i (total - i) := by
  induction fuel with
  | zero =>
    intro i total h
    have : total - i = 0 := by omega
    have hni : ¬ i < total := by omega
    simp [exportBatchesAux, this]
  | succ fuel ih =>
    intro i total h
    by_cases hi : i < total
    · have hflat :
          (exportBatchesAux 5 (fuel + 1) i total).flatten =
            batchIndices i total 5 ++ (exportBatchesAux 5 fuel (i + 5) total).flatten := by
        simp [exportBatchesAux, hi]
      have hbatch : batchIndices i total 5 = List.range' i (min 5 (total - i)) := by
        rw [batchIndices, List.range'_eq_map_range]
      have hrec : (exportBatchesAux 5 fuel (i + 5) total).flatten =
          List.range' (i + 5) (total - (i + 5)) :=
        ih (i + 5) total (by omega)
      rw [hflat, hbatch, hrec]
      by_cases h5 : 5 ≤ total - i
      · have hmin : min 5 (total - i) = 5 := by omega
        have happ := List.range'_append i 5 (total - (i + 5)) 1
        have h1 : i + 1 * 5 = i + 5 := by omega
        have h2 : total - (i + 5) + 5 = total - i := by omega
        rw [h1, h2] at happ
        rw [hmin, happ]
      · have hmin : min 5 (total - i) = total - i := by omega
        have hz : total - (i + 5) = 0 := by omega
        rw [hmin, hz]
        simp
    · have : total - i = 0 := by omega
      simp [exportBatchesAux, hi, this]

/-- The frame indices captured and written by one export are exactly
`0, 1, ..., totalFrames - 1`, in order. -/
theorem exportBatches_flatten (total : ℕ) :
    (exportBatches total).flatten = List.range total := by
  rw [exportBatches, exportBatchesAux_flatten total 0 total (by omega)]
  simp [List.range_eq_range']

/-- Every batch issued by the capture loop has at most 5 frames. -/
theorem exportBatchesAux_size (fuel : ℕ) :
    ∀ i total b, b ∈ exportBatchesAux 5 fuel i total → b.length ≤ 5 := by
  induction fuel with
  | zero => simp [exportBatchesAux]
  | succ fuel ih =>
    intro i total b hb
    rw [exportBatchesAux] at hb
    by_cases hi : i < total
    · rw [if_pos hi] at hb
      rcases List.mem_cons.mp hb with hb | hb
      · subst hb
        simp [batchIndices]
      · exact ih _ _ b hb
    · rw [if_neg hi] at hb
      simp at hb

/-- Every batch issued by one export has at most 5 frames. -/
theorem exportBatches_size (total : ℕ) :
    ∀ b ∈ exportBatches total, b.length ≤ 5 := by
  intro b hb
  exact exportBatchesAux_size total 0 total b hb

/-- C1: for every export request with positive duration `D` and positive
frame rate `F`, `totalFrames` is `Math.floor(D * F)`, and the frame
sequence indices the capture loop issues are exactly
`0 .. totalFrames - 1` — no gaps (the flattened batches are the full
range) and no duplicates. -/
theorem c1_total_frames_and_indices (D F : ℚ) (hD : 0 < D) (hF : 0 < F) :
    (totalFramesNat D F : ℤ) = ⌊D * F⌋ ∧
    (exportBatches (totalFramesNat D F)).flatten = List.range (totalFramesNat D F) ∧
    (exportBatches (totalFramesNat D F)).flatten.Nodup := by
  refine ⟨?_, exportBatches_flatten _, ?_⟩
  · have hpos : (0 : ℚ) ≤ D * F := le_of_lt (mul_pos hD hF)
    have : (0 : ℤ) ≤ ⌊D * F⌋ := Int.le_floor.mpr (by exact_mod_cast hpos)
    exact Int.toNat_of_nonneg this
  · rw [exportBatches_flatten]
    exact List.nodup_range _

/-- C1 (witness): at the source defaults `duration = 3`, `fps = 30`, the
hypotheses hold and the export captures exactly frames `0 .. 89`. -/
theorem c1_total_frames_and_indices_witness :
    ((0 : ℚ) < 3 ∧ (0 : ℚ) < 30) ∧
    ((totalFramesNat 3 30 : ℤ) = ⌊(3 : ℚ) * 30⌋ ∧
      (exportBatches (totalFramesNat 3 30)).flatten = List.range (totalFramesNat 3 30) ∧
      (exportBatches (totalFramesNat 3 30)).flatten.Nodup) :=
  ⟨⟨by norm_num, by norm_num⟩, c1_total_frames_and_indices 3 30 (by norm_num) (by norm_num)⟩

/-- C10: for every export with at least one frame, every captured frame's
normalized time is `sequenceIndex / totalFrames`, lying in `[0, 1)` and
never equal to 1; the first frame is captured at exactly progress 0 and
the last at `(totalFrames - 1) / totalFrames < 1`, so the animation state
at progress exactly 1 is never captured. -/
theorem c10_normalized_time_range (total : ℕ) (h : 1 ≤ total) :
    (∀ i ∈ (exportBatches total).flatten,
      normalizedTime i total = (i : ℚ) / total ∧
      0 ≤ normalizedTime i total ∧
      normalizedTime i total < 1 ∧
      normalizedTime i total ≠ 1) ∧
    normalizedTime 0 total = 0 ∧
    normalizedTime (total - 1) total = ((total : ℚ) - 1) / total ∧
    normalizedTime (total - 1) total < 1 := by
  have htot : (0 : ℚ) < total := by exact_mod_cast h
  have hmem : ∀ i : ℕ, i < total → normalizedTime i total < 1 := by
    intro i hi
    rw [normalizedTime, div_lt_one htot]
    exact_mod_cast hi
  refine ⟨?_, ?_, ?_, ?_⟩
  · intro i hi
    rw [exportBatches_flatten, List.mem_range] at hi
    exact ⟨rfl, div_nonneg (by positivity) (le_of_lt htot), hmem i hi,
      ne_of_lt (hmem i hi)⟩
  · simp [normalizedTime]
  · rw [normalizedTime, Nat.cast_sub h, Nat.cast_one]
  · exact hmem (total - 1) (by omega)

/-- C10 (witness): at `totalFrames = 10` the hypothesis holds; all ten
capture times are `i / 10 ∈ [0, 1)`, the first is 0, the last is
`9 / 10 < 1`. -/
theorem c10_normalized_time_range_witness :
    1 ≤ 10 ∧
    ((∀ i ∈ (exportBatches 10).flatten,
      normalizedTime i 10 = (i : ℚ) / 10 ∧
      0 ≤ normalizedTime i 10 ∧
      normalizedTime i 10 < 1 ∧
      normalizedTime i 10 ≠ 1) ∧
    normalizedTime 0 10 = 0 ∧
    normalizedTime (10 - 1) 10 = ((10 : ℚ) - 1) / 10 ∧
    normalizedTime (10 - 1) 10 < 1) :=
  ⟨by norm_num, c10_normalized_time_range 10 (by norm_num)⟩

/-- In every trace of the batched loop, every frame index of the schedule
has its capture initiated at some point. -/
theorem validTrace_start_mem :
    ∀ (bs : List (List ℕ)) (t : List CapEvent), ValidTrace bs t →
      ∀ j, j ∈ bs.flatten → CapEvent.start j ∈ t := by
  intro bs
  induction bs with
  | nil =>
    intro t ht j hj
    rw [List.flatten_nil] at hj
    exact absurd hj (List.not_mem_nil j)
  | cons b bs ih =>
    intro t ht j hj
    obtain ⟨t₁, t₂, rfl, ⟨c, _, rfl⟩, hvt⟩ := ht
    rw [List.flatten_cons, List.mem_append] at hj
    rcases hj with hj | hj
    · exact List.mem_append_left _ (List.mem_append_left _ (List.mem_map_of_mem _ hj))
    · exact List.mem_append_right _ (ih t₂ hvt j hj)

/-- Batch separation: in every trace of the batched loop over a
duplicate-free schedule, for any frame `i` of batch `K` and any frame `j`
of a later batch, the trace splits so that the resolution of `i`'s
capture-and-write lies strictly before the initiation of `j`'s capture. -/
theorem validTrace_separation :
    ∀ (bs : List (List ℕ)) (t : List CapEvent), ValidTrace bs t →
      bs.flatten.Nodup →
      ∀ (K Kd : ℕ) (bK bKd : List ℕ) (i j : ℕ), K < Kd →
        bs[K]? = some bK → bs[Kd]? = some bKd → i ∈ bK → j ∈ bKd →
        ∃ t₁ t₂, t = t₁ ++ t₂ ∧ CapEvent.finish i ∈ t₁ ∧
          CapEvent.start j ∈ t₂ ∧ CapEvent.start j ∉ t₁ := by
  intro bs
  induction bs with
  | nil =>
    intro t _ _ K _ _ _ _ _ _ hK
    simp at hK
  | cons b bs ih =>
    intro t ht hnd K Kd bK bKd i j hKKd hK hKd hi hj
    obtain ⟨t₁, t₂, rfl, ⟨c, hperm, rfl⟩, hvt⟩ := ht
    rw [List.flatten_cons] at hnd
    have hdisj : b.Disjoint bs.flatten := List.disjoint_of_nodup_append hnd
    have hnd2 : bs.flatten.Nodup := hnd.of_append_right
    obtain ⟨Kd', rfl⟩ : ∃ Kd', Kd = Kd' + 1 := ⟨Kd - 1, by omega⟩
    rw [List.getElem?_cons_succ] at hKd
    have hbKd_mem : bKd ∈ bs := by
      obtain ⟨hlt, hget⟩ := List.getElem?_eq_some.mp hKd
      exact hget ▸ List.getElem_mem hlt
    have hjf : j ∈ bs.flatten := List.mem_flatten.mpr ⟨bKd, hbKd_mem, hj⟩
    have hjnotb : j ∉ b := fun hjb => hdisj hjb hjf
    have hstart_notin : CapEvent.start j ∉ b.map CapEvent.start ++ c.map CapEvent.finish := by
      intro hmem
      rcases List.mem_append.mp hmem with hmem | hmem
      · obtain ⟨x, hx, hxe⟩ := List.mem_map.mp hmem
        obtain rfl : x = j := by injection hxe
        exact hjnotb hx
      · obtain ⟨x, _, hxe⟩ := List.mem_map.mp hmem
        cases hxe
    match K with
    | 0 =>
      obtain rfl : b = bK := by
        rw [List.getElem?_cons_zero] at hK
        injection hK
      refine ⟨List.map CapEvent.start b ++ List.map CapEvent.finish c, t₂, rfl, ?_, ?_,
        hstart_notin⟩
      · exact List.mem_append_right _ (List.mem_map_of_mem _ (hperm.mem_iff.mpr hi))
      · exact validTrace_start_mem bs t₂ hvt j hjf
    | K' + 1 =>
      rw [List.getElem?_cons_succ] at hK
      obtain ⟨u₁, u₂, hu, hfin, hstart, hnot⟩ :=
        ih t₂ hvt hnd2 K' Kd' bK bKd i j (by omega) hK hKd hi hj
      refine ⟨(List.map CapEvent.start b ++ List.map CapEvent.finish c) ++ u₁, u₂, ?_, ?_,
        hstart, ?_⟩
      · rw [hu]
        simp [List.append_assoc]
      · exact List.mem_append_right _ hfin
      · intro hmem
        rcases List.mem_append.mp hmem with hmem | hmem
        · exact hstart_notin hmem
        · exact hnot hmem

/-- C4: the capture loop partitions `[0, totalFrames)` into batches that
never exceed size 5 (flattening them gives exactly the full index range),
and in every trace the loop can produce, no capture of a later batch is
initiated until every capture-and-write of each earlier batch has
resolved: the trace splits with all of batch `K`'s resolutions strictly
before batch `Kd`'s initiations whenever `K < Kd`. -/
theorem c4_bounded_sequential_batches (total : ℕ) (t : List CapEvent)
    (ht : ValidTrace (exportBatches total) t) :
    (∀ b ∈ exportBatches total, b.length ≤ 5) ∧
    (exportBatches total).flatten = List.range total ∧
    (∀ (K Kd : ℕ) (bK bKd : List ℕ) (i j : ℕ), K < Kd →
      (exportBatches total)[K]? = some bK →
      (exportBatches total)[Kd]? = some bKd →
      i ∈ bK → j ∈ bKd →
      ∃ t₁ t₂, t = t₁ ++ t₂ ∧ CapEvent.finish i ∈ t₁ ∧
        CapEvent.start j ∈ t₂ ∧ CapEvent.start j ∉ t₁) := by
  refine ⟨exportBatches_size total, exportBatches_flatten total, ?_⟩
  intro K Kd bK bKd i j hKKd hK hKd hi hj
  have hnd : (exportBatches total).flatten.Nodup := by
    rw [exportBatches_flatten]
    exact List.nodup_range _
  exact validTrace_separation (exportBatches total) t ht hnd K Kd bK bKd i j hKKd hK hKd hi hj

/-- A concrete trace of a 7-frame export: batch `[0..4]` starts in order,
its writes resolve, then batch `[5, 6]` starts and resolves. -/
def witnessTrace7 : List CapEvent :=
  [.start 0, .start 1, .start 2, .start 3, .start 4,
    .finish 0, .finish 1, .finish 2, .finish 3, .finish 4,
    .start 5, .start 6, .finish 5, .finish 6]

/-- C4 (witness): for a 7-frame export and the concrete trace above, the
hypothesis holds and the batching/separation conclusion follows. -/
theorem c4_bounded_sequential_batches_witness :
    ValidTrace (exportBatches 7) witnessTrace7 ∧
    ((∀ b ∈ exportBatches 7, b.length ≤ 5) ∧
      (exportBatches 7).flatten = List.range 7 ∧
      (∀ (K Kd : ℕ) (bK bKd : List ℕ) (i j : ℕ), K < Kd →
        (exportBatches 7)[K]? = some bK →
        (exportBatches 7)[Kd]? = some bKd →
        i ∈ bK → j ∈ bKd →
        ∃ t₁ t₂, witnessTrace7 = t₁ ++ t₂ ∧ CapEvent.finish i ∈ t₁ ∧
          CapEvent.start j ∈ t₂ ∧ CapEvent.start j ∉ t₁)) := by
  have hb : exportBatches 7 = [[0, 1, 2, 3, 4], [5, 6]] := by decide
  have hvt : ValidTrace (exportBatches 7) witnessTrace7 := by
    rw [hb]
    exact ⟨[.start 0, .start 1, .start 2, .start 3, .start 4,
        .finish 0, .finish 1, .finish 2, .finish 3, .finish 4],
      [.start 5, .start 6, .finish 5, .finish 6], rfl,
      ⟨[0, 1, 2, 3, 4], List.Perm.refl _, rfl⟩,
      ⟨[.start 5, .start 6, .finish 5, .finish 6], [], rfl,
        ⟨[5, 6], List.Perm.refl _, rfl⟩, rfl⟩⟩
  exact ⟨hvt, c4_bounded_sequential_batches 7 witnessTrace7 hvt⟩

/-- Zero has no digits in the fueled digit expansion. -/
theorem toDigitsRevAux_zero (fuel : ℕ) : toDigitsRevAux fuel 0 = [] := by
  cases fuel <;> rfl

/-- The fueled digit expansion of a nonzero number peels one digit. -/
theorem toDigitsRevAux_succ (f n : ℕ) (hn : n ≠ 0) :
    toDigitsRevAux (f + 1) n = n % 10 :: toDigitsRevAux f (n / 10) := by
  match n, hn with
  | m + 1, _ => rfl

/-- Fixed-width digits of zero are all zero. -/
theorem fixDigitsLE_zero (k : ℕ) : fixDigitsLE k 0 = List.replicate k 0 := by
  induction k with
  | zero => rfl
  | succ k ih => simp [fixDigitsLE, ih, List.replicate_succ]

/-- For `n < 10 ^ k` with enough fuel, the `k`-wide little-endian digit
expansion is the plain digit expansion followed by zero padding. -/
theorem fixDigitsLE_eq_aux :
    ∀ (k n fuel : ℕ), n < 10 ^ k → n ≤ fuel →
      fixDigitsLE k n =
        toDigitsRevAux fuel n ++
          List.replicate (k - (toDigitsRevAux fuel n).length) 0 := by
  intro k
  induction k with
  | zero =>
    intro n fuel hn _
    obtain rfl : n = 0 := by simpa using hn
    simp [fixDigitsLE, toDigitsRevAux_zero]
  | succ k ih =>
    intro n fuel hn hfuel
    by_cases hz : n = 0
    · subst hz
      simp [fixDigitsLE_zero, toDigitsRevAux_zero]
    · obtain ⟨f, rfl⟩ : ∃ f, fuel = f + 1 := ⟨fuel - 1, by omega⟩
      rw [toDigitsRevAux_succ f n hz]
      have hdivlt : n / 10 < 10 ^ k := by
        rw [Nat.div_lt_iff_lt_mul (by norm_num)]
        calc n < 10 ^ (k + 1) := hn
        _ = 10 ^ k * 10 := by ring
      have hdivfuel : n / 10 ≤ f := by
        have := Nat.div_lt_self (Nat.pos_of_ne_zero hz) (by norm_num : (1 : ℕ) < 10)
        omega
      have hrec := ih (n / 10) f hdivlt hdivfuel
      rw [fixDigitsLE, hrec]
      simp [List.length_cons]

/-- Peeling the least significant digit off a big-endian fixed-width
expansion. -/
theorem fixDigitsBE_snoc :
    ∀ (k n : ℕ), n < 10 ^ (k + 1) →
      fixDigitsBE (k + 1) n = fixDigitsBE k (n / 10) ++ [n % 10] := by
  intro k
  induction k with
  | zero =>
    intro n hn
    have : n % 10 = n := Nat.mod_eq_of_lt (by simpa using hn)
    simp [fixDigitsBE, this]
  | succ k ih =>
    intro n hn
    have hpow : 10 ^ (k + 1) * 10 = 10 ^ (k + 2) := by ring
    have hhead : n / 10 ^ (k + 1) = n / 10 / 10 ^ k := by
      rw [Nat.div_div_eq_div_mul]
      congr 1
      ring
    have hmodlt : n % 10 ^ (k + 1) < 10 ^ (k + 1) := Nat.mod_lt _ (by positivity)
    have hmods : n % 10 ^ (k + 1) % 10 = n % 10 :=
      Nat.mod_mod_of_dvd n (dvd_pow_self 10 (Nat.succ_ne_zero k))
    have hmodd : n % 10 ^ (k + 1) / 10 = n / 10 % 10 ^ k := by
      have h1 : 10 ^ (k + 1) = 10 * 10 ^ k := by ring
      rw [h1, Nat.mod_mul_right_div_self]
    have htail := ih (n % 10 ^ (k + 1)) hmodlt
    rw [hmods, hmodd] at htail
    show n / 10 ^ (k + 1) :: fixDigitsBE (k + 1) (n % 10 ^ (k + 1)) =
      (n / 10 / 10 ^ k :: fixDigitsBE k (n / 10 % 10 ^ k)) ++ [n % 10]
    rw [htail, hhead]
    rfl

/-- The big-endian fixed-width expansion is the reverse of the
little-endian one. -/
theorem fixDigitsLE_reverse :
    ∀ (k n : ℕ), n < 10 ^ k → (fixDigitsLE k n).reverse = fixDigitsBE k n := by
  intro k
  induction k with
  | zero =>
    intro n hn
    rfl
  | succ k ih =>
    intro n hn
    have hdivlt : n / 10 < 10 ^ k := by
      rw [Nat.div_lt_iff_lt_mul (by norm_num)]
      calc n < 10 ^ (k + 1) := hn
      _ = 10 ^ k * 10 := by ring
    rw [fixDigitsLE, List.reverse_cons, ih (n / 10) hdivlt,
      fixDigitsBE_snoc k n hn]

/-- A `k`-wide big-endian expansion has length `k`. -/
theorem fixDigitsBE_length : ∀ (k n : ℕ), (fixDigitsBE k n).length = k := by
  intro k
  induction k with
  | zero => intro n; rfl
  | succ k ih =>
    intro n
    simp [fixDigitsBE, ih]

/-- Digit characters are strictly monotone on decimal digits. -/
theorem digitChar_lt (a b : ℕ) (hab : a < b) (hb : b ≤ 9) :
    digitChar a < digitChar b := by
  have ha : a ≤ 8 := by omega
  interval_cases a <;> interval_cases b <;> decide

/-- Lexicographic comparison survives appending suffixes to two lists of
equal length that already compare strictly. -/
theorem lexLt_append_of_lt_of_length_eq :
    ∀ {s t : List Char}, List.Lex (· < ·) s t → s.length = t.length →
      ∀ (u v : List Char), List.Lex (· < ·) (s ++ u) (t ++ v) := by
  intro s t h
  induction h with
  | nil =>
    intro hlen
    simp at hlen
  | cons _ ih =>
    intro hlen u v
    exact List.Lex.cons (ih (by simpa using hlen) u v)
  | rel hab =>
    intro _ u v
    exact List.Lex.rel hab

/-- Lexicographic comparison survives prepending a common front. -/
theorem lexLt_append_left (p : List Char) {s t : List Char}
    (h : List.Lex (· < ·) s t) :
    List.Lex (· < ·) (p ++ s) (p ++ t) := by
  induction p with
  | nil => exact h
  | cons c p ih => exact List.Lex.cons ih

/-- Strictly larger numbers below `10 ^ k` have lexicographically larger
`k`-wide digit-character expansions. -/
theorem fixDigitsBE_map_lt :
    ∀ (k i j : ℕ), i < j → j < 10 ^ k →
      List.Lex (· < ·) ((fixDigitsBE k i).map digitChar)
        ((fixDigitsBE k j).map digitChar) := by
  intro k
  induction k with
  | zero =>
    intro i j hij hj
    omega
  | succ k ih =>
    intro i j hij hj
    have hbq : j / 10 ^ k ≤ 9 := by
      have : j / 10 ^ k < 10 := by
        rw [Nat.div_lt_iff_lt_mul (by positivity)]
        calc j < 10 ^ (k + 1) := hj
        _ = 10 * 10 ^ k := by ring
      omega
    have haq : i / 10 ^ k ≤ j / 10 ^ k := Nat.div_le_div_right (le_of_lt hij)
    show List.Lex (· < ·)
      (digitChar (i / 10 ^ k) :: (fixDigitsBE k (i % 10 ^ k)).map digitChar)
      (digitChar (j / 10 ^ k) :: (fixDigitsBE k (j % 10 ^ k)).map digitChar)
    rcases lt_or_eq_of_le haq with hlt | heq
    · exact List.Lex.rel (digitChar_lt _ _ hlt hbq)
    · have hmodlt : i % 10 ^ k < j % 10 ^ k := by
        have hi := Nat.div_add_mod i (10 ^ k)
        have hjm := Nat.div_add_mod j (10 ^ k)
        rw [heq] at hi
        omega
      have hjmod : j % 10 ^ k < 10 ^ k := Nat.mod_lt _ (by positivity)
      rw [heq]
      exact List.Lex.cons (ih _ _ hmodlt hjmod)

/-- For frame indices below `10 ^ 6`, `toString().padStart(6, '0')` is the
six-digit zero-padded big-endian decimal expansion. -/
theorem padStart_eq_fixDigitsBE (n : ℕ) (hn : n < 10 ^ 6) :
    padStartChars 6 (digitChar 0) (jsNatChars n) = (fixDigitsBE 6 n).map digitChar := by
  by_cases hz : n = 0
  · subst hz
    decide
  · have hrev := fixDigitsLE_reverse 6 n hn
    rw [fixDigitsLE_eq_aux 6 n n hn (le_refl n), List.reverse_append,
      List.reverse_replicate] at hrev
    rw [← hrev, jsNatChars, if_neg hz, padStartChars, List.map_append,
      List.map_replicate, List.map_reverse]
    simp [List.length_reverse, List.length_map]

/-- C7 (amended): for every pair of frame indices `i < j` that both fit in
six decimal digits (`j < 10 ^ 6`), the generated filenames satisfy
`frameName i < frameName j` in lexical string order, so lexical order of
the written filenames coincides with numeric frame order throughout any
export of at most `10 ^ 6` frames. -/
theorem c7_frame_names_monotone (i j : ℕ) (hij : i < j) (hj : j < 10 ^ 6) :
    frameName i < frameName j := by
  rw [String.lt_iff_toList_lt]
  have hdata : ∀ n, (frameName n).toList =
      "frames/frame".toList ++
        (padStartChars 6 (digitChar 0) (jsNatChars n) ++ ".png".toList) := by
    intro n
    show (frameName n).data = _
    rw [frameName, String.data_append, String.data_append, List.append_assoc]
    rfl
  rw [hdata i, hdata j]
  have hi6 : i < 10 ^ 6 := lt_trans hij hj
  have hlt : List.Lex (· < ·) (padStartChars 6 (digitChar 0) (jsNatChars i))
      (padStartChars 6 (digitChar 0) (jsNatChars j)) := by
    rw [padStart_eq_fixDigitsBE i hi6, padStart_eq_fixDigitsBE j hj]
    exact fixDigitsBE_map_lt 6 i j hij hj
  have hlen : (padStartChars 6 (digitChar 0) (jsNatChars i)).length =
      (padStartChars 6 (digitChar 0) (jsNatChars j)).length := by
    rw [padStart_eq_fixDigitsBE i hi6, padStart_eq_fixDigitsBE j hj]
    simp [List.length_map, fixDigitsBE_length]
  exact lexLt_append_left _ (lexLt_append_of_lt_of_length_eq hlt hlen _ _)

/-- C7 (witness for the amended theorem): frames 3 and 12 of any export
give `frames/frame000003.png < frames/frame000012.png`. -/
theorem c7_frame_names_monotone_witness :
    3 < 12 ∧ 12 < 10 ^ 6 ∧ frameName 3 < frameName 12 :=
  ⟨by norm_num, by norm_num, c7_frame_names_monotone 3 12 (by norm_num) (by norm_num)⟩

/-- C7 (counterexample): the claim quantifies over every pair of frame
indices of an export, but `padStart(6, '0')` does not truncate: an export
with `duration = 200000` and `fps = 10` has `totalFrames = 2000000`, it
produces both frame 999999 and frame 1000000, and their filenames compare
the wrong way around — `frames/frame1000000.png < frames/frame999999.png`
lexically even though `999999 < 1000000` numerically. -/
theorem c7_lexical_order_counterexample :
    999999 < totalFramesNat 200000 10 ∧
    1000000 < totalFramesNat 200000 10 ∧
    (999999 : ℕ) < 1000000 ∧
    ¬ frameName 999999 < frameName 1000000 ∧
    frameName 1000000 < frameName 999999 := by
  have htot : totalFramesNat 200000 10 = 2000000 := by
    rw [totalFramesNat, show (200000 : ℚ) * 10 = ((2000000 : ℤ) : ℚ) by norm_num,
      Int.floor_intCast]
    rfl
  refine ⟨by rw [htot]; norm_num, by rw [htot]; norm_num, by norm_num, ?_, ?_⟩
  · rw [String.lt_iff_toList_lt]
    decide
  · rw [String.lt_iff_toList_lt]
    decide
